import Mathlib

/-!
Shallow embedding of the universal_exchange backend: the trading engine
(`src/services/trading-engine.ts`), the store operations it relies on
(`src/db/schema.ts`), and the settlement processor (BlockchainService).

Monetary quantities are modelled as rationals (the source uses JS numbers;
the spec's design notes treat exact arithmetic as the intended semantics).
Timestamps are naturals.  Fresh identifiers, produced in the source from
`Date.now()` plus randomness, are supplied as explicit parameters.
-/

namespace UniversalExchange

/-- Order side, `side IN ('buy','sell')`. -/
inductive Side
  | buy
  | sell
deriving DecidableEq, Repr

/-- Order type, `type IN ('limit','market')`. -/
inductive OrderType
  | limit
  | market
deriving DecidableEq, Repr

/-- Order status values used by the engine and store. -/
inductive OrderStatus
  | pending
  | partiallyFilled
  | filled
  | cancelled
deriving DecidableEq, Repr

/-- A row of the `orders` table, as surfaced by `getOrders` / `getOrderById`. -/
structure Order where
  id : String
  address : String
  asset : String
  side : Side
  amount : ℚ
  remainingAmount : ℚ
  price : ℚ
  type : OrderType
  status : OrderStatus
  createdAt : ℕ
deriving DecidableEq, Repr

/-- A trade record as built by `matchOrder` in the trading engine. -/
structure Trade where
  id : String
  buyOrderId : String
  sellOrderId : String
  asset : String
  amount : ℚ
  price : ℚ
  buyerAddress : String
  sellerAddress : String
  timestamp : ℕ
deriving DecidableEq, Repr

/-- The `balances` table: `(address, asset) → balance`, missing rows read as 0
(`getBalance` returns `result?.balance || 0`). -/
def Balances : Type := String → String → ℚ

/-- `updateBalance`: `INSERT OR REPLACE INTO balances`. -/
def updateBalance (bal : Balances) (address asset : String) (v : ℚ) : Balances :=
  fun a s => if a = address ∧ s = asset then v else bal a s

/-- `getQuoteAsset`: the quote currency is hard-coded to USDC. -/
def getQuoteAsset (_asset : String) : String := "USDC"

/-- `executeTrade` (balance-mutation part): credit the buyer with the base
amount, debit the seller by the same; debit the buyer by `amount * price` of
the quote asset and credit the seller symmetrically.  The four store writes
happen in this order, each reading the balance left by the previous one. -/
def executeTrade (t : Trade) (bal : Balances) : Balances :=
  let bal1 := updateBalance bal t.buyerAddress t.asset
    (bal t.buyerAddress t.asset + t.amount)
  let bal2 := updateBalance bal1 t.sellerAddress t.asset
    (bal1 t.sellerAddress t.asset - t.amount)
  let quoteAsset := getQuoteAsset t.asset
  let quoteAmount := t.amount * t.price
  let bal3 := updateBalance bal2 t.buyerAddress quoteAsset
    (bal2 t.buyerAddress quoteAsset - quoteAmount)
  updateBalance bal3 t.sellerAddress quoteAsset
    (bal3 t.sellerAddress quoteAsset + quoteAmount)

/-- `executeTrade` applied to each trade of a match result, in order. -/
def executeTrades (ts : List Trade) (bal : Balances) : Balances :=
  ts.foldl (fun b t => executeTrade t b) bal

/-- `canMatch`: same-side orders cannot match; two limit orders match iff
`buy.price ≥ sell.price`; if either order is a market order they always
match. -/
def canMatch (o1 o2 : Order) : Bool :=
  if o1.side = o2.side then false
  else
    let buyOrder := if o1.side = Side.buy then o1 else o2
    let sellOrder := if o1.side = Side.sell then o1 else o2
    if buyOrder.type = OrderType.limit ∧ sellOrder.type = OrderType.limit then
      decide (buyOrder.price ≥ sellOrder.price)
    else if buyOrder.type = OrderType.market ∨ sellOrder.type = OrderType.market then
      true
    else
      false

/-- `determineTradePrice`: both limit → price of the order with the earlier
`created_at` (ties go to the sell order's price, since `<` fails); market
against limit → the limit order's price; both market → the average. -/
def determineTradePrice (o1 o2 : Order) : ℚ :=
  let buyOrder := if o1.side = Side.buy then o1 else o2
  let sellOrder := if o1.side = Side.sell then o1 else o2
  if buyOrder.type = OrderType.limit ∧ sellOrder.type = OrderType.limit then
    if buyOrder.createdAt < sellOrder.createdAt then buyOrder.price else sellOrder.price
  else if buyOrder.type = OrderType.market ∧ sellOrder.type = OrderType.limit then
    sellOrder.price
  else if buyOrder.type = OrderType.limit ∧ sellOrder.type = OrderType.market then
    buyOrder.price
  else
    (buyOrder.price + sellOrder.price) / 2

/-- Comparator of `getOrders`' `ORDER BY created_at DESC` (newest rows first). -/
def newestFirst (a b : Order) : Prop := b.createdAt ≤ a.createdAt

instance : DecidableRel newestFirst := fun a b =>
  inferInstanceAs (Decidable (b.createdAt ≤ a.createdAt))

/-- `getOrders(address?, status?)`: `WHERE` filters on address and status, then
`ORDER BY created_at DESC`. -/
def getOrders (orders : List Order) (address : Option String)
    (status : Option OrderStatus) : List Order :=
  let filtered := orders.filter (fun o =>
    (match address with
     | none => true
     | some a => decide (o.address = a)) &&
    (match status with
     | none => true
     | some s => decide (o.status = s)))
  List.insertionSort newestFirst filtered

/-- The JS sort comparator of `getOrdersForMatching`: buy candidates by
descending price (best bid first), sell candidates by ascending price (best
ask first).  `Array.prototype.sort` is stable. -/
def priceBetter (side : Side) (a b : Order) : Prop :=
  match side with
  | Side.buy => b.price ≤ a.price
  | Side.sell => a.price ≤ b.price

instance (side : Side) : DecidableRel (priceBetter side) := fun a b =>
  match side with
  | Side.buy => inferInstanceAs (Decidable (b.price ≤ a.price))
  | Side.sell => inferInstanceAs (Decidable (a.price ≤ b.price))

/-- `getOrdersForMatching(asset, side)`: take `getOrders(undefined, 'pending')`,
keep orders with the requested asset and side that are not cancelled, and
stable-sort by best price first. -/
def getOrdersForMatching (orders : List Order) (asset : String) (side : Side) :
    List Order :=
  List.insertionSort (priceBetter side)
    ((getOrders orders none (some OrderStatus.pending)).filter (fun o =>
      decide (o.asset = asset) && decide (o.side = side) &&
        decide (o.status ≠ OrderStatus.cancelled)))

/-- Inserting `a` into a list that is sorted for the combined
"comparator-then-original-order" relation keeps that relation, provided `a`
preceded every list element in the original order.  This is the key step of
the stability argument for insertion sort. -/
theorem pairwise_orderedInsert_combined {α : Type} (r : α → α → Prop)
    [DecidableRel r] (total : ∀ x y, r x y ∨ r y x)
    (htrans : ∀ x y z, r x y → r y z → r x z) (s : α → α → Prop) (a : α) :
    ∀ l : List α, List.Pairwise (fun x y => r x y ∧ (r y x → s x y)) l →
      (∀ x ∈ l, s a x) →
      List.Pairwise (fun x y => r x y ∧ (r y x → s x y)) (List.orderedInsert r a l) := by
  intro l
  induction l with
  | nil => intro _ _; simp [List.orderedInsert]
  | cons c cs ih =>
    intro hl ha
    rw [List.orderedInsert]
    by_cases hac : r a c
    · rw [if_pos hac]
      refine List.Pairwise.cons ?_ hl
      intro x hx
      rcases List.mem_cons.1 hx with rfl | hx
      · exact ⟨hac, fun _ => ha x (by simp)⟩
      · rcases List.pairwise_cons.1 hl with ⟨hc, _⟩
        exact ⟨htrans a c x hac (hc x hx).1, fun _ => ha x (by simp [hx])⟩
    · rw [if_neg hac]
      rcases List.pairwise_cons.1 hl with ⟨hc, hcs⟩
      refine List.Pairwise.cons ?_ (ih hcs (fun x hx => ha x (by simp [hx])))
      intro x hx
      rcases (List.mem_orderedInsert r).1 hx with rfl | hx
      · exact ⟨(total x c).resolve_left hac, fun hax => absurd hax hac⟩
      · exact hc x hx

/-- Stability of `List.insertionSort` for a total transitive comparator: if
the input is pairwise ordered by `s`, the output is pairwise ordered by the
comparator, and elements equivalent under the comparator keep their `s`
order. -/
theorem pairwise_insertionSort_combined {α : Type} (r : α → α → Prop)
    [DecidableRel r] (total : ∀ x y, r x y ∨ r y x)
    (htrans : ∀ x y z, r x y → r y z → r x z) (s : α → α → Prop) :
    ∀ l : List α, List.Pairwise s l →
      List.Pairwise (fun x y => r x y ∧ (r y x → s x y)) (List.insertionSort r l) := by
  intro l
  induction l with
  | nil => intro _; simp [List.insertionSort]
  | cons b l ih =>
    intro hl
    rcases List.pairwise_cons.1 hl with ⟨hb, hl'⟩
    rw [List.insertionSort]
    exact pairwise_orderedInsert_combined r total htrans s b _ (ih hl')
      (fun x hx => hb x ((List.mem_insertionSort r).1 hx))

/-- Every list is pairwise related by the trivially true relation. -/
theorem pairwise_trivial {α : Type} : ∀ l : List α,
    List.Pairwise (fun _ _ => True) l := by
  intro l
  induction l with
  | nil => exact List.Pairwise.nil
  | cons b l ih => exact List.Pairwise.cons (fun _ _ => trivial) ih

/-- `insertionSort` output is pairwise ordered by a total transitive
comparator. -/
theorem pairwise_insertionSort_of_total {α : Type} (r : α → α → Prop)
    [DecidableRel r] (total : ∀ x y, r x y ∨ r y x)
    (htrans : ∀ x y z, r x y → r y z → r x z) (l : List α) :
    List.Pairwise r (List.insertionSort r l) :=
  (pairwise_insertionSort_combined r total htrans (fun _ _ => True) l
    (pairwise_trivial l)).imp (fun h => h.1)

/-- A store write applied to a matched candidate during the loop:
`updateOrderStatus` followed by `updateOrderRemainingAmount`. -/
structure BookUpdate where
  orderId : String
  status : OrderStatus
  remainingAmount : ℚ
deriving DecidableEq, Repr

/-- Result of one run of the match loop. -/
structure LoopResult where
  trades : List Trade
  remaining : ℚ
  updates : List BookUpdate
deriving DecidableEq, Repr

/-- The trade record built in the body of the match loop.  `order` is the
incoming order (with its current remaining amount), `c` the candidate. -/
def mkTrade (tradeId : ℕ → String) (idx : ℕ) (now : ℕ) (order c : Order)
    (tradeAmount tradePrice : ℚ) : Trade :=
  { id := tradeId idx
    buyOrderId := if order.side = Side.buy then order.id else c.id
    sellOrderId := if order.side = Side.sell then order.id else c.id
    asset := order.asset
    amount := tradeAmount
    price := tradePrice
    buyerAddress := if order.side = Side.buy then order.address else c.address
    sellerAddress := if order.side = Side.sell then order.address else c.address
    timestamp := now }

/-- The `for` loop of `matchOrder`: walk the sorted candidate list, skip
candidates that fail `canMatch`, trade `min(remaining, candidate.remaining)`
at `determineTradePrice`, update the candidate in the store, and stop once
the incoming order's remaining amount reaches zero. -/
def matchLoop (tradeId : ℕ → String) (now : ℕ) (order : Order) :
    ℕ → ℚ → List Order → LoopResult
  | _, remaining, [] => ⟨[], remaining, []⟩
  | idx, remaining, c :: rest =>
    if canMatch {order with remainingAmount := remaining} c then
      let tradeAmount := min remaining c.remainingAmount
      let tradePrice := determineTradePrice {order with remainingAmount := remaining} c
      let t := mkTrade tradeId idx now {order with remainingAmount := remaining} c
        tradeAmount tradePrice
      let newRemaining := remaining - tradeAmount
      let candRemaining := c.remainingAmount - tradeAmount
      let update : BookUpdate :=
        if candRemaining = 0 then ⟨c.id, OrderStatus.filled, 0⟩
        else ⟨c.id, OrderStatus.partiallyFilled, candRemaining⟩
      if newRemaining = 0 then ⟨[t], 0, [update]⟩
      else
        let res := matchLoop tradeId now order (idx + 1) newRemaining rest
        ⟨t :: res.trades, res.remaining, update :: res.updates⟩
    else
      matchLoop tradeId now order idx remaining rest

/-- Result of `matchOrder`: the trades, the incoming order with its final
remaining amount (or `null` when fully consumed), and the candidate store
updates performed along the way. -/
structure MatchResult where
  trades : List Trade
  remainingOrder : Option Order
  updates : List BookUpdate
deriving DecidableEq, Repr

/-- `matchOrder`: fetch the opposite-side candidates and run the loop over
them, starting from the order's own remaining amount. -/
def matchOrder (tradeId : ℕ → String) (now : ℕ) (order : Order)
    (orders : List Order) : MatchResult :=
  let oppositeSide := if order.side = Side.buy then Side.sell else Side.buy
  let oppositeOrders := getOrdersForMatching orders order.asset oppositeSide
  let res := matchLoop tradeId now order 0 order.remainingAmount oppositeOrders
  { trades := res.trades
    remainingOrder :=
      if res.remaining > 0 then some {order with remainingAmount := res.remaining}
      else none
    updates := res.updates }

/-- An order request as accepted by `processOrder` (post-validation). -/
structure OrderRequest where
  address : String
  asset : String
  side : Side
  amount : ℚ
  price : ℚ
  type : OrderType
deriving DecidableEq, Repr

/-- Result of `processOrder`: the created order as finally persisted, the
trades, the returned `remainingAmount`, and the balances after the trades
were executed. -/
structure ProcessResult where
  order : Order
  trades : List Trade
  remainingAmount : ℚ
  updates : List BookUpdate
  balances : Balances

/-- The status/remaining writes `processOrder` applies to the new order after
matching: no trades and an untouched remainder → keep `pending`; a remainder
smaller than the original amount → `partially_filled`; no remainder →
`filled` with remaining 0.  When a remainder exists but no branch writes, the
order keeps the state `createOrder` inserted (`pending`, remaining =
amount). -/
def finalizeOrder (order : Order) (mr : MatchResult) : Order :=
  match mr.remainingOrder with
  | some ro =>
    if mr.trades = [] ∧ ro.remainingAmount = order.amount then
      {order with status := OrderStatus.pending, remainingAmount := order.amount}
    else if ro.remainingAmount < order.amount then
      {order with status := OrderStatus.partiallyFilled,
                  remainingAmount := ro.remainingAmount}
    else order
  | none => {order with status := OrderStatus.filled, remainingAmount := 0}

/-- `processOrder`: create the order (status `pending`, remaining = amount),
match it against the book (which now also contains the new order itself —
filtered out by the opposite-side filter), persist the final status and
remaining amount, execute the trades, and return
`remainingOrder?.remainingAmount || 0`. -/
def newOrderOf (orderId : String) (now : ℕ) (req : OrderRequest) : Order :=
  { id := orderId, address := req.address, asset := req.asset
    side := req.side, amount := req.amount, remainingAmount := req.amount
    price := req.price, type := req.type, status := OrderStatus.pending
    createdAt := now }

def processOrder (orderId : String) (tradeId : ℕ → String) (now : ℕ)
    (req : OrderRequest) (orders : List Order) (bal : Balances) : ProcessResult :=
  let order := newOrderOf orderId now req
  let mr := matchOrder tradeId now order (orders ++ [order])
  { order := finalizeOrder order mr
    trades := mr.trades
    remainingAmount :=
      match mr.remainingOrder with
      | some ro => ro.remainingAmount
      | none => 0
    updates := mr.updates
    balances := executeTrades mr.trades bal }

/-- `cancelOrder(id)`: look the order up; unknown id → `false`; status other
than `pending`/`partially_filled` → `false`; otherwise set the status of the
matching row to `cancelled` and return `true`. -/
def cancelOrder (orders : List Order) (id : String) : Bool × List Order :=
  match orders.find? (fun o => o.id == id) with
  | none => (false, orders)
  | some o =>
    if o.status ≠ OrderStatus.pending ∧ o.status ≠ OrderStatus.partiallyFilled then
      (false, orders)
    else
      (true, orders.map (fun o2 =>
        if o2.id = id then {o2 with status := OrderStatus.cancelled} else o2))

/-- Settlement status values. -/
inductive SettlementStatus
  | pending
  | confirmed
  | failed
deriving DecidableEq, Repr

/-- A `settlement_requests` event payload. -/
structure SettlementEvent where
  id : String
  fromAddr : String
  toAddr : String
  amount : ℚ
  asset : String
deriving DecidableEq, Repr

/-- Events published by the settlement processor. -/
inductive PublishedEvent
  | settlementConfirmed (id : String)
  | settlementFailed (id : String) (reason : String)
deriving DecidableEq, Repr

/-- Outcome of `processSettlementRequest`: the balances after processing, the
status written via `updateSettlementStatus` (with `confirmed_at` set iff the
status is `confirmed`), and the event published. -/
structure SettlementResult where
  balances : Balances
  status : SettlementStatus
  confirmedAt : Option ℕ
  published : PublishedEvent

/-- `BlockchainService.processSettlementRequest`, after the simulated
confirmation delay: read the sender balance; if it is below the amount, mark
the settlement failed and publish `settlement_failed` with the
required/available amounts, touching no balance; otherwise debit the sender,
credit the receiver, mark the settlement confirmed with `confirmed_at = now`,
and publish `settlement_confirmed`. -/
def processSettlementRequest (now : ℕ) (e : SettlementEvent)
    (bal : Balances) : SettlementResult :=
  let senderBalance := bal e.fromAddr e.asset
  if senderBalance < e.amount then
    { balances := bal
      status := SettlementStatus.failed
      confirmedAt := none
      published := PublishedEvent.settlementFailed e.id
        ("Insufficient balance. Required: " ++ toString e.amount ++
          ", Available: " ++ toString senderBalance) }
  else
    let newSenderBalance := senderBalance - e.amount
    let receiverBalance := bal e.toAddr e.asset
    let newReceiverBalance := receiverBalance + e.amount
    let bal1 := updateBalance bal e.fromAddr e.asset newSenderBalance
    let bal2 := updateBalance bal1 e.toAddr e.asset newReceiverBalance
    { balances := bal2
      status := SettlementStatus.confirmed
      confirmedAt := some now
      published := PublishedEvent.settlementConfirmed e.id }

/-- C1: for every trade executed by `executeTrade` between distinct
counterparties in a base asset other than the quote currency, the buyer's
base-asset balance rises by `trade.amount` and the seller's falls by the
same; the buyer's USDC balance falls by `trade.amount * trade.price` and
the seller's rises by the same; hence the base-asset balance deltas across
buyer and seller sum to zero, and so do the quote-asset deltas. -/
theorem executeTrade_balance_deltas (t : Trade) (bal : Balances)
    (hne : t.buyerAddress ≠ t.sellerAddress) (hq : t.asset ≠ "USDC") :
    (executeTrade t bal t.buyerAddress t.asset - bal t.buyerAddress t.asset
      = t.amount) ∧
    (executeTrade t bal t.sellerAddress t.asset - bal t.sellerAddress t.asset
      = -t.amount) ∧
    (executeTrade t bal t.buyerAddress "USDC" - bal t.buyerAddress "USDC"
      = -(t.amount * t.price)) ∧
    (executeTrade t bal t.sellerAddress "USDC" - bal t.sellerAddress "USDC"
      = t.amount * t.price) ∧
    ((executeTrade t bal t.buyerAddress t.asset - bal t.buyerAddress t.asset) +
      (executeTrade t bal t.sellerAddress t.asset - bal t.sellerAddress t.asset)
      = 0) ∧
    ((executeTrade t bal t.buyerAddress "USDC" - bal t.buyerAddress "USDC") +
      (executeTrade t bal t.sellerAddress "USDC" - bal t.sellerAddress "USDC")
      = 0) := by
  have hne' : t.sellerAddress ≠ t.buyerAddress := Ne.symm hne
  have hq' : "USDC" ≠ t.asset := Ne.symm hq
  have hb : executeTrade t bal t.buyerAddress t.asset
      = bal t.buyerAddress t.asset + t.amount := by
    simp [executeTrade, updateBalance, getQuoteAsset, hne, hne', hq, hq']
  have hs : executeTrade t bal t.sellerAddress t.asset
      = bal t.sellerAddress t.asset - t.amount := by
    simp [executeTrade, updateBalance, getQuoteAsset, hne, hne', hq, hq']
  have hbq : executeTrade t bal t.buyerAddress "USDC"
      = bal t.buyerAddress "USDC" - t.amount * t.price := by
    simp [executeTrade, updateBalance, getQuoteAsset, hne, hne', hq, hq']
  have hsq : executeTrade t bal t.sellerAddress "USDC"
      = bal t.sellerAddress "USDC" + t.amount * t.price := by
    simp [executeTrade, updateBalance, getQuoteAsset, hne, hne', hq, hq']
  refine ⟨by rw [hb]; ring, by rw [hs]; ring, by rw [hbq]; ring,
    by rw [hsq]; ring, by rw [hb, hs]; ring, by rw [hbq, hsq]; ring⟩

/-- Concrete witness for `executeTrade_balance_deltas`. -/
def twDemo : Trade := ⟨"t1", "b1", "s1", "ETH", 2, 7, "0xb", "0xa", 0⟩

/-- Constant demo balance sheet. -/
def balDemo : Balances := fun _ _ => 100

theorem executeTrade_balance_deltas_witness :
    (("0xb" : String) ≠ "0xa") ∧ (("ETH" : String) ≠ "USDC") ∧
    ((executeTrade twDemo balDemo "0xb" "ETH" - balDemo "0xb" "ETH" = 2) ∧
     (executeTrade twDemo balDemo "0xa" "ETH" - balDemo "0xa" "ETH" = -2) ∧
     (executeTrade twDemo balDemo "0xb" "USDC" - balDemo "0xb" "USDC" = -(2 * 7)) ∧
     (executeTrade twDemo balDemo "0xa" "USDC" - balDemo "0xa" "USDC" = 2 * 7) ∧
     ((executeTrade twDemo balDemo "0xb" "ETH" - balDemo "0xb" "ETH") +
       (executeTrade twDemo balDemo "0xa" "ETH" - balDemo "0xa" "ETH") = 0) ∧
     ((executeTrade twDemo balDemo "0xb" "USDC" - balDemo "0xb" "USDC") +
       (executeTrade twDemo balDemo "0xa" "USDC" - balDemo "0xa" "USDC") = 0)) :=
  ⟨by decide, by decide,
    executeTrade_balance_deltas twDemo balDemo (by decide) (by decide)⟩

/-- C2: when a buy limit order and a sell limit order with distinct creation
times trade, `determineTradePrice` returns the price of the earlier order,
and the result always lies within the band spanned by the two limit
prices. -/
theorem determineTradePrice_both_limit (o1 o2 : Order)
    (hside : o1.side ≠ o2.side)
    (h1 : o1.type = OrderType.limit) (h2 : o2.type = OrderType.limit) :
    ((o1.createdAt < o2.createdAt → determineTradePrice o1 o2 = o1.price) ∧
     (o2.createdAt < o1.createdAt → determineTradePrice o1 o2 = o2.price)) ∧
    min o1.price o2.price ≤ determineTradePrice o1 o2 ∧
    determineTradePrice o1 o2 ≤ max o1.price o2.price := by
  cases hs1 : o1.side <;> cases hs2 : o2.side
  · exact absurd (hs1.trans hs2.symm) hside
  · have key : determineTradePrice o1 o2
        = if o1.createdAt < o2.createdAt then o1.price else o2.price := by
      simp [determineTradePrice, hs1, hs2, h1, h2]
    rw [key]
    by_cases h : o1.createdAt < o2.createdAt
    · refine ⟨⟨fun _ => by simp [h], fun h' => absurd (h.trans h') (lt_irrefl _)⟩, ?_⟩
      simp [h, min_le_left, le_max_left]
    · refine ⟨⟨fun h' => absurd h' h, fun _ => by simp [h]⟩, ?_⟩
      simp [h, min_le_right, le_max_right]
  · have key : determineTradePrice o1 o2
        = if o2.createdAt < o1.createdAt then o2.price else o1.price := by
      simp [determineTradePrice, hs1, hs2, h1, h2]
    rw [key]
    by_cases h : o2.createdAt < o1.createdAt
    · refine ⟨⟨fun h' => absurd (h'.trans h) (lt_irrefl _), fun _ => by simp [h]⟩, ?_⟩
      simp [h, min_le_right, le_max_right]
    · refine ⟨⟨fun _ => by simp [h], fun h' => absurd h' h⟩, ?_⟩
      simp [h, min_le_left, le_max_left]
  · exact absurd (hs1.trans hs2.symm) hside

/-- Demo orders for the `determineTradePrice` witness: the sell was posted
earlier, so its price wins. -/
def buyDemoC2 : Order :=
  ⟨"b1", "0xb", "ETH", Side.buy, 1, 1, 2000, OrderType.limit, OrderStatus.pending, 4⟩

def sellDemoC2 : Order :=
  ⟨"s1", "0xa", "ETH", Side.sell, 1, 1, 1999, OrderType.limit, OrderStatus.pending, 3⟩

theorem determineTradePrice_both_limit_witness :
    (buyDemoC2.side ≠ sellDemoC2.side ∧ buyDemoC2.type = OrderType.limit ∧
      sellDemoC2.type = OrderType.limit) ∧
    (((buyDemoC2.createdAt < sellDemoC2.createdAt →
        determineTradePrice buyDemoC2 sellDemoC2 = buyDemoC2.price) ∧
      (sellDemoC2.createdAt < buyDemoC2.createdAt →
        determineTradePrice buyDemoC2 sellDemoC2 = sellDemoC2.price)) ∧
     min buyDemoC2.price sellDemoC2.price ≤ determineTradePrice buyDemoC2 sellDemoC2 ∧
     determineTradePrice buyDemoC2 sellDemoC2 ≤ max buyDemoC2.price sellDemoC2.price) :=
  ⟨⟨by decide, by decide, by decide⟩,
    determineTradePrice_both_limit buyDemoC2 sellDemoC2
      (by decide) (by decide) (by decide)⟩

/-- `priceBetter` is total. -/
theorem priceBetter_total (side : Side) (a b : Order) :
    priceBetter side a b ∨ priceBetter side b a := by
  cases side <;> exact le_total _ _ |>.symm.imp id id

/-- `priceBetter` is transitive. -/
theorem priceBetter_trans (side : Side) (a b c : Order) :
    priceBetter side a b → priceBetter side b c → priceBetter side a c := by
  cases side
  · exact fun h1 h2 => le_trans h2 h1
  · exact fun h1 h2 => le_trans h1 h2

/-- `newestFirst` is total. -/
theorem newestFirst_total (a b : Order) : newestFirst a b ∨ newestFirst b a :=
  (Nat.le_total b.createdAt a.createdAt).imp id id

/-- `newestFirst` is transitive. -/
theorem newestFirst_trans (a b c : Order) :
    newestFirst a b → newestFirst b c → newestFirst a c :=
  fun h1 h2 => Nat.le_trans h2 h1

/-- C3 (amended): the candidate list iterated by the match loop is ordered
best price first (bids descending, asks ascending); among candidates with
equal price the LATEST-posted order comes first (`created_at`
non-increasing), because `getOrders` returns rows newest-first and the price
sort is stable. -/
theorem getOrdersForMatching_ordering (orders : List Order) (asset : String)
    (side : Side) :
    List.Pairwise (fun a b => priceBetter side a b ∧
        (priceBetter side b a → b.createdAt ≤ a.createdAt))
      (getOrdersForMatching orders asset side) := by
  have hsorted : List.Pairwise newestFirst
      (getOrders orders none (some OrderStatus.pending)) := by
    have := pairwise_insertionSort_of_total newestFirst newestFirst_total
      newestFirst_trans ((orders.filter (fun o =>
        (match (none : Option String) with
         | none => true
         | some a => decide (o.address = a)) &&
        (match (some OrderStatus.pending : Option OrderStatus) with
         | none => true
         | some s => decide (o.status = s)))))
    exact this
  have hfiltered : List.Pairwise newestFirst
      ((getOrders orders none (some OrderStatus.pending)).filter (fun o =>
        decide (o.asset = asset) && decide (o.side = side) &&
          decide (o.status ≠ OrderStatus.cancelled))) :=
    List.Pairwise.filter _ hsorted
  exact pairwise_insertionSort_combined (priceBetter side)
    (priceBetter_total side) (priceBetter_trans side) newestFirst _ hfiltered

/-- Demo book for the C3 counterexample: two resting sells at the same
price, posted at times 1 and 2. -/
def sellEarlyC3 : Order :=
  ⟨"s1", "0xa", "ETH", Side.sell, 3, 3, 5, OrderType.limit, OrderStatus.pending, 1⟩

def sellLateC3 : Order :=
  ⟨"s2", "0xc", "ETH", Side.sell, 3, 3, 5, OrderType.limit, OrderStatus.pending, 2⟩

/-- C3 (counterexample): on a book with two equal-priced resting sells, the
candidate list is NOT ordered earliest-posted-first within the price level —
the later-posted order (`created_at = 2`) is iterated first, because
`getOrders` sorts newest-first and the price sort is stable. -/
theorem getOrdersForMatching_time_priority_counterexample :
    ¬ List.Pairwise (fun a b => priceBetter Side.sell a b ∧
        (a.price = b.price → a.createdAt ≤ b.createdAt))
      (getOrdersForMatching [sellEarlyC3, sellLateC3] "ETH" Side.sell) :=
  of_decide_eq_true (by with_unfolding_all rfl)

/-- Membership in the opposite-side candidate set: exactly the book's orders
with the requested asset and side whose status is `pending`. -/
theorem mem_getOrdersForMatching (orders : List Order) (asset : String)
    (side : Side) (o : Order) :
    o ∈ getOrdersForMatching orders asset side ↔
      o ∈ orders ∧ o.asset = asset ∧ o.side = side ∧
        o.status = OrderStatus.pending := by
  unfold getOrdersForMatching getOrders
  rw [List.mem_insertionSort, List.mem_filter, List.mem_insertionSort,
    List.mem_filter]
  simp only [Bool.and_eq_true, decide_eq_true_iff]
  constructor
  · rintro ⟨⟨ho, -, hp⟩, ⟨ha, hs⟩, -⟩
    exact ⟨ho, ha, hs, hp⟩
  · rintro ⟨ho, ha, hs, hp⟩
    exact ⟨⟨ho, trivial, hp⟩, ⟨ha, hs⟩, by rw [hp]; simp⟩

/-- C6: the opposite-side candidate set contains exactly the orders of the
book with the requested asset and side whose status is `pending`; in
particular a `partially_filled` resting order is never drawn into a match
loop. -/
theorem getOrdersForMatching_mem (orders : List Order) (asset : String)
    (side : Side) (o : Order) :
    (o ∈ getOrdersForMatching orders asset side ↔
      o ∈ orders ∧ o.asset = asset ∧ o.side = side ∧
        o.status = OrderStatus.pending) ∧
    (o.status = OrderStatus.partiallyFilled →
      o ∉ getOrdersForMatching orders asset side) := by
  have hmem := mem_getOrdersForMatching orders asset side o
  refine ⟨hmem, fun hpf hin => ?_⟩
  have := (hmem.1 hin).2.2.2
  rw [hpf] at this
  exact OrderStatus.noConfusion this

/-- Concrete instantiation of `getOrdersForMatching_mem`: a partially filled
sell is excluded from the candidate set even though asset and side match. -/
def partialSellC6 : Order :=
  ⟨"s9", "0xa", "ETH", Side.sell, 3, 1, 5, OrderType.limit,
    OrderStatus.partiallyFilled, 1⟩

theorem getOrdersForMatching_mem_witness :
    (partialSellC6 ∈ getOrdersForMatching [partialSellC6] "ETH" Side.sell ↔
      partialSellC6 ∈ [partialSellC6] ∧ partialSellC6.asset = "ETH" ∧
        partialSellC6.side = Side.sell ∧
        partialSellC6.status = OrderStatus.pending) ∧
    (partialSellC6.status = OrderStatus.partiallyFilled →
      partialSellC6 ∉ getOrdersForMatching [partialSellC6] "ETH" Side.sell) :=
  getOrdersForMatching_mem [partialSellC6] "ETH" Side.sell partialSellC6

/-- With unique order ids, `find?` by id returns exactly the member carrying
that id. -/
theorem find_by_id_of_nodup (orders : List Order) (o : Order) (id : String)
    (hN : (orders.map Order.id).Nodup) (ho : o ∈ orders) (hid : o.id = id) :
    orders.find? (fun x => x.id == id) = some o := by
  induction orders with
  | nil => exact absurd ho (List.not_mem_nil o)
  | cons h t ih =>
    have hN' := hN
    simp only [List.map_cons, List.nodup_cons, List.mem_map] at hN'
    obtain ⟨hhn, htn⟩ := hN'
    by_cases hh : h.id = id
    · have : o = h := by
        rcases List.mem_cons.1 ho with rfl | hot
        · rfl
        · exact absurd (hid.trans hh.symm) (by
            intro hoh
            exact hhn ⟨o, hot, hoh⟩)
      subst this
      simp [List.find?_cons, hh]
    · have hot : o ∈ t := by
        rcases List.mem_cons.1 ho with rfl | hot
        · exact absurd hid hh
        · exact hot
      rw [List.find?_cons_of_neg _ (by simpa using hh)]
      exact ih htn hot

/-- C7: with unique order ids, `cancelOrder` returns `true` and sets the
order's status to `cancelled` exactly when an order with the requested id
exists in `pending` or `partially_filled` status; on success all other
orders are untouched, and on failure (unknown id or any other status) the
store is unchanged. -/
theorem cancelOrder_spec (orders : List Order) (id : String)
    (hN : (orders.map Order.id).Nodup) :
    ((cancelOrder orders id).1 = true ↔
      ∃ o ∈ orders, o.id = id ∧ (o.status = OrderStatus.pending ∨
        o.status = OrderStatus.partiallyFilled)) ∧
    ((cancelOrder orders id).1 = true →
      (∀ o ∈ (cancelOrder orders id).2, o.id = id →
        o.status = OrderStatus.cancelled) ∧
      (∀ o ∈ orders, o.id ≠ id → o ∈ (cancelOrder orders id).2)) ∧
    ((cancelOrder orders id).1 = false → (cancelOrder orders id).2 = orders) := by
  cases hfind : orders.find? (fun x => x.id == id) with
  | none =>
    have hres : cancelOrder orders id = (false, orders) := by
      simp [cancelOrder, hfind]
    rw [hres]
    refine ⟨⟨fun h => absurd h (by simp), ?_⟩, by simp, fun _ => rfl⟩
    rintro ⟨o, ho, hid, -⟩
    rw [find_by_id_of_nodup orders o id hN ho hid] at hfind
    exact Option.noConfusion hfind
  | some o =>
    have hoid : o.id = id := by
      have := List.find?_some hfind
      simpa using this
    have homem : o ∈ orders := List.mem_of_find?_eq_some hfind
    by_cases hbad : o.status ≠ OrderStatus.pending ∧
        o.status ≠ OrderStatus.partiallyFilled
    · have hres : cancelOrder orders id = (false, orders) := by
        simp only [cancelOrder, hfind]
        rw [if_pos hbad]
      rw [hres]
      refine ⟨⟨fun h => absurd h (by simp), ?_⟩, by simp, fun _ => rfl⟩
      rintro ⟨o2, ho2, hid2, hstat2⟩
      have : o2 = o := by
        have := find_by_id_of_nodup orders o2 id hN ho2 hid2
        rw [this] at hfind
        exact (Option.some.inj hfind)
      subst this
      rcases hstat2 with h | h
      · exact absurd h hbad.1
      · exact absurd h hbad.2
    · have hgood : o.status = OrderStatus.pending ∨
          o.status = OrderStatus.partiallyFilled := by
        by_cases h1 : o.status = OrderStatus.pending
        · exact Or.inl h1
        · by_cases h2 : o.status = OrderStatus.partiallyFilled
          · exact Or.inr h2
          · exact absurd ⟨h1, h2⟩ hbad
      have hres : cancelOrder orders id = (true, orders.map (fun o2 =>
          if o2.id = id then {o2 with status := OrderStatus.cancelled} else o2)) := by
        simp only [cancelOrder, hfind]
        rw [if_neg hbad]
      rw [hres]
      refine ⟨⟨fun _ => ⟨o, homem, hoid, hgood⟩, fun _ => rfl⟩, fun _ => ⟨?_, ?_⟩,
        by simp⟩
      · intro o2 ho2 hid2
        rcases List.mem_map.1 ho2 with ⟨o3, ho3, heq⟩
        by_cases h3 : o3.id = id
        · rw [if_pos h3] at heq
          rw [← heq]
        · rw [if_neg h3] at heq
          exact absurd (heq ▸ hid2) h3
      · intro o2 ho2 hid2
        refine List.mem_map.2 ⟨o2, ho2, ?_⟩
        rw [if_neg hid2]

/-- Demo store for the `cancelOrder` witness: one pending order. -/
def pendingOrderC7 : Order :=
  ⟨"o7", "0xa", "ETH", Side.buy, 1, 1, 2000, OrderType.limit,
    OrderStatus.pending, 1⟩

theorem cancelOrder_spec_witness :
    (([pendingOrderC7].map Order.id).Nodup) ∧
    (((cancelOrder [pendingOrderC7] "o7").1 = true ↔
      ∃ o ∈ [pendingOrderC7], o.id = "o7" ∧ (o.status = OrderStatus.pending ∨
        o.status = OrderStatus.partiallyFilled)) ∧
    ((cancelOrder [pendingOrderC7] "o7").1 = true →
      (∀ o ∈ (cancelOrder [pendingOrderC7] "o7").2, o.id = "o7" →
        o.status = OrderStatus.cancelled) ∧
      (∀ o ∈ [pendingOrderC7], o.id ≠ "o7" →
        o ∈ (cancelOrder [pendingOrderC7] "o7").2)) ∧
    ((cancelOrder [pendingOrderC7] "o7").1 = false →
      (cancelOrder [pendingOrderC7] "o7").2 = [pendingOrderC7])) :=
  ⟨by decide, cancelOrder_spec [pendingOrderC7] "o7" (by decide)⟩

/-- C8: when the settlement processor handles a request between distinct
addresses and the sender's balance covers the amount, the sender is debited
by the amount, the receiver credited by it, the settlement is marked
confirmed with `confirmed_at` set, and `settlement_confirmed` is
published. -/
theorem processSettlementRequest_success (now : ℕ) (e : SettlementEvent)
    (bal : Balances) (hne : e.fromAddr ≠ e.toAddr)
    (hbal : e.amount ≤ bal e.fromAddr e.asset) :
    (processSettlementRequest now e bal).balances e.fromAddr e.asset
        = bal e.fromAddr e.asset - e.amount ∧
    (processSettlementRequest now e bal).balances e.toAddr e.asset
        = bal e.toAddr e.asset + e.amount ∧
    (processSettlementRequest now e bal).status = SettlementStatus.confirmed ∧
    (processSettlementRequest now e bal).confirmedAt = some now ∧
    (processSettlementRequest now e bal).published
        = PublishedEvent.settlementConfirmed e.id := by
  have hnolt : ¬ bal e.fromAddr e.asset < e.amount := not_lt.2 hbal
  refine ⟨?_, ?_, ?_, ?_, ?_⟩ <;>
    simp [processSettlementRequest, hnolt, updateBalance, hne, Ne.symm hne]

/-- Demo event for the settlement success witness. -/
def settleEventC8 : SettlementEvent := ⟨"set1", "0xa", "0xb", 100, "USDC"⟩

/-- Demo balance sheet for the settlement witnesses. -/
def settleBalC8 : Balances := fun a _ => if a = "0xa" then 500 else 0

theorem processSettlementRequest_success_witness :
    (settleEventC8.fromAddr ≠ settleEventC8.toAddr ∧
      settleEventC8.amount ≤ settleBalC8 settleEventC8.fromAddr settleEventC8.asset) ∧
    ((processSettlementRequest 7 settleEventC8 settleBalC8).balances
        settleEventC8.fromAddr settleEventC8.asset
        = settleBalC8 settleEventC8.fromAddr settleEventC8.asset
          - settleEventC8.amount ∧
    (processSettlementRequest 7 settleEventC8 settleBalC8).balances
        settleEventC8.toAddr settleEventC8.asset
        = settleBalC8 settleEventC8.toAddr settleEventC8.asset
          + settleEventC8.amount ∧
    (processSettlementRequest 7 settleEventC8 settleBalC8).status
        = SettlementStatus.confirmed ∧
    (processSettlementRequest 7 settleEventC8 settleBalC8).confirmedAt = some 7 ∧
    (processSettlementRequest 7 settleEventC8 settleBalC8).published
        = PublishedEvent.settlementConfirmed settleEventC8.id) :=
  ⟨⟨by decide, by decide⟩,
    processSettlementRequest_success 7 settleEventC8 settleBalC8
      (by decide) (by decide)⟩

/-- C9: when the sender's balance is below the requested amount, the
settlement is marked failed, `settlement_failed` is published with a reason
naming the required and available amounts, and no balance changes; and in
general every failed settlement leaves the balance sheet unchanged. -/
theorem processSettlementRequest_insufficient (now : ℕ) (e : SettlementEvent)
    (bal : Balances) (h : bal e.fromAddr e.asset < e.amount) :
    (processSettlementRequest now e bal).status = SettlementStatus.failed ∧
    (processSettlementRequest now e bal).published
        = PublishedEvent.settlementFailed e.id
            ("Insufficient balance. Required: " ++ toString e.amount ++
              ", Available: " ++ toString (bal e.fromAddr e.asset)) ∧
    (processSettlementRequest now e bal).balances = bal ∧
    (∀ (now2 : ℕ) (e2 : SettlementEvent) (bal2 : Balances),
      (processSettlementRequest now2 e2 bal2).status = SettlementStatus.failed →
      (processSettlementRequest now2 e2 bal2).balances = bal2) := by
  refine ⟨by simp [processSettlementRequest, h], by simp [processSettlementRequest, h],
    by simp [processSettlementRequest, h], ?_⟩
  intro now2 e2 bal2 hst
  by_cases h2 : bal2 e2.fromAddr e2.asset < e2.amount
  · simp [processSettlementRequest, h2]
  · rw [show (processSettlementRequest now2 e2 bal2).status
        = SettlementStatus.confirmed by simp [processSettlementRequest, h2]] at hst
    exact SettlementStatus.noConfusion hst

/-- Demo event for the settlement failure witness: 100 requested, 40 held. -/
def settleEventC9 : SettlementEvent := ⟨"set2", "0xa", "0xb", 100, "USDC"⟩

def settleBalC9 : Balances := fun a _ => if a = "0xa" then 40 else 0

theorem processSettlementRequest_insufficient_witness :
    (settleBalC9 settleEventC9.fromAddr settleEventC9.asset
        < settleEventC9.amount) ∧
    ((processSettlementRequest 7 settleEventC9 settleBalC9).status
        = SettlementStatus.failed ∧
    (processSettlementRequest 7 settleEventC9 settleBalC9).published
        = PublishedEvent.settlementFailed settleEventC9.id
            ("Insufficient balance. Required: " ++ toString settleEventC9.amount ++
              ", Available: " ++
                toString (settleBalC9 settleEventC9.fromAddr settleEventC9.asset)) ∧
    (processSettlementRequest 7 settleEventC9 settleBalC9).balances = settleBalC9 ∧
    (∀ (now2 : ℕ) (e2 : SettlementEvent) (bal2 : Balances),
      (processSettlementRequest now2 e2 bal2).status = SettlementStatus.failed →
      (processSettlementRequest now2 e2 bal2).balances = bal2)) :=
  ⟨by decide, processSettlementRequest_insufficient 7 settleEventC9 settleBalC9
    (by decide)⟩

/-- `canMatch` ignores the remaining amount of either order. -/
theorem canMatch_set_remaining (o c : Order) (x : ℚ) :
    canMatch {o with remainingAmount := x} c = canMatch o c := by
  cases hos : o.side <;> cases hcs : c.side <;> simp [canMatch, hos, hcs]

/-- Unfolding: a candidate failing the match predicate is skipped. -/
theorem matchLoop_cons_skip (tradeId : ℕ → String) (now : ℕ) (order : Order)
    (idx : ℕ) (rem : ℚ) (c : Order) (rest : List Order)
    (h : canMatch {order with remainingAmount := rem} c = false) :
    matchLoop tradeId now order idx rem (c :: rest)
      = matchLoop tradeId now order idx rem rest := by
  simp [matchLoop, h]

/-- Unfolding: a matching candidate that consumes the whole remaining amount
ends the loop. -/
theorem matchLoop_cons_break (tradeId : ℕ → String) (now : ℕ) (order : Order)
    (idx : ℕ) (rem : ℚ) (c : Order) (rest : List Order)
    (h : canMatch {order with remainingAmount := rem} c = true)
    (h0 : rem - min rem c.remainingAmount = 0) :
    matchLoop tradeId now order idx rem (c :: rest)
      = ⟨[mkTrade tradeId idx now {order with remainingAmount := rem} c
            (min rem c.remainingAmount)
            (determineTradePrice {order with remainingAmount := rem} c)], 0,
          [if c.remainingAmount - min rem c.remainingAmount = 0 then
            ⟨c.id, OrderStatus.filled, 0⟩
          else
            ⟨c.id, OrderStatus.partiallyFilled,
              c.remainingAmount - min rem c.remainingAmount⟩]⟩ := by
  simp [matchLoop, h, h0]

/-- Unfolding: a matching candidate that leaves a remainder prepends its
trade and update, and the loop continues on the rest. -/
theorem matchLoop_cons_continue (tradeId : ℕ → String) (now : ℕ) (order : Order)
    (idx : ℕ) (rem : ℚ) (c : Order) (rest : List Order)
    (h : canMatch {order with remainingAmount := rem} c = true)
    (h0 : rem - min rem c.remainingAmount ≠ 0) :
    matchLoop tradeId now order idx rem (c :: rest)
      = ⟨mkTrade tradeId idx now {order with remainingAmount := rem} c
            (min rem c.remainingAmount)
            (determineTradePrice {order with remainingAmount := rem} c)
          :: (matchLoop tradeId now order (idx + 1)
              (rem - min rem c.remainingAmount) rest).trades,
         (matchLoop tradeId now order (idx + 1)
            (rem - min rem c.remainingAmount) rest).remaining,
         (if c.remainingAmount - min rem c.remainingAmount = 0 then
            (⟨c.id, OrderStatus.filled, 0⟩ : BookUpdate)
          else
            ⟨c.id, OrderStatus.partiallyFilled,
              c.remainingAmount - min rem c.remainingAmount⟩)
          :: (matchLoop tradeId now order (idx + 1)
              (rem - min rem c.remainingAmount) rest).updates⟩ := by
  simp [matchLoop, h, h0]

/-- Loop invariant: starting from a positive remaining amount over candidates
with positive remaining amounts, the final remaining amount equals the start
minus the traded total, stays non-negative, and every trade has positive
amount. -/
theorem matchLoop_invariant (tradeId : ℕ → String) (now : ℕ) (order : Order) :
    ∀ (cands : List Order) (idx : ℕ) (rem : ℚ), 0 < rem →
      (∀ c ∈ cands, 0 < c.remainingAmount) →
      (matchLoop tradeId now order idx rem cands).remaining
          = rem - ((matchLoop tradeId now order idx rem cands).trades.map
              Trade.amount).sum ∧
      0 ≤ (matchLoop tradeId now order idx rem cands).remaining ∧
      (∀ t ∈ (matchLoop tradeId now order idx rem cands).trades, 0 < t.amount) := by
  intro cands
  induction cands with
  | nil =>
    intro idx rem h0 _
    refine ⟨by simp [matchLoop], by simp [matchLoop]; exact h0.le, by simp [matchLoop]⟩
  | cons c rest ih =>
    intro idx rem h0 hc
    have hcpos : 0 < c.remainingAmount := hc c (by simp)
    have hrest : ∀ x ∈ rest, 0 < x.remainingAmount := fun x hx => hc x (by simp [hx])
    by_cases hcm : canMatch {order with remainingAmount := rem} c = true
    · have hminpos : 0 < min rem c.remainingAmount := lt_min h0 hcpos
      have hminle : min rem c.remainingAmount ≤ rem := min_le_left _ _
      by_cases hz : rem - min rem c.remainingAmount = 0
      · rw [matchLoop_cons_break tradeId now order idx rem c rest hcm hz]
        refine ⟨?_, le_refl 0, ?_⟩
        · simp [mkTrade]
          linarith
        · intro t ht
          simp at ht
          rw [ht]
          exact hminpos
      · rw [matchLoop_cons_continue tradeId now order idx rem c rest hcm hz]
        have hnewpos : 0 < rem - min rem c.remainingAmount :=
          lt_of_le_of_ne (by linarith) (Ne.symm hz)
        obtain ⟨ih1, ih2, ih3⟩ := ih (idx + 1) (rem - min rem c.remainingAmount)
          hnewpos hrest
        refine ⟨?_, ih2, ?_⟩
        · simp only [List.map_cons, List.sum_cons, mkTrade]
          rw [ih1]
          ring
        · intro t ht
          rcases List.mem_cons.1 ht with rfl | ht
          · exact hminpos
          · exact ih3 t ht
    · rw [matchLoop_cons_skip tradeId now order idx rem c rest
        (Bool.not_eq_true _ ▸ Bool.of_not_eq_true hcm)]
      exact ih idx rem h0 hrest

/-- Every trade emitted by the match loop stems from a candidate of the
iterated list that passed `canMatch`, and carries that candidate's id and
address on the side opposite to the incoming order. -/
theorem matchLoop_trades_origin (tradeId : ℕ → String) (now : ℕ) (order : Order) :
    ∀ (cands : List Order) (idx : ℕ) (rem : ℚ),
      ∀ t ∈ (matchLoop tradeId now order idx rem cands).trades,
        ∃ c ∈ cands, canMatch order c = true ∧
          t.buyOrderId = (if order.side = Side.buy then order.id else c.id) ∧
          t.sellOrderId = (if order.side = Side.sell then order.id else c.id) ∧
          t.buyerAddress
            = (if order.side = Side.buy then order.address else c.address) ∧
          t.sellerAddress
            = (if order.side = Side.sell then order.address else c.address) := by
  intro cands
  induction cands with
  | nil => intro idx rem t ht; simp [matchLoop] at ht
  | cons c rest ih =>
    intro idx rem t ht
    by_cases hcm : canMatch {order with remainingAmount := rem} c = true
    · have hcm' : canMatch order c = true := by
        rw [← canMatch_set_remaining order c rem]; exact hcm
      by_cases hz : rem - min rem c.remainingAmount = 0
      · rw [matchLoop_cons_break tradeId now order idx rem c rest hcm hz] at ht
        simp only [List.mem_singleton] at ht
        subst ht
        exact ⟨c, by simp, hcm', by simp [mkTrade], by simp [mkTrade],
          by simp [mkTrade], by simp [mkTrade]⟩
      · rw [matchLoop_cons_continue tradeId now order idx rem c rest hcm hz] at ht
        rcases List.mem_cons.1 ht with rfl | ht
        · exact ⟨c, by simp, hcm', by simp [mkTrade], by simp [mkTrade],
            by simp [mkTrade], by simp [mkTrade]⟩
        · obtain ⟨c2, hc2, hrest⟩ := ih (idx + 1) (rem - min rem c.remainingAmount) t ht
          exact ⟨c2, by simp [hc2], hrest⟩
    · rw [matchLoop_cons_skip tradeId now order idx rem c rest
        (Bool.not_eq_true _ ▸ Bool.of_not_eq_true hcm)] at ht
      obtain ⟨c2, hc2, hrest⟩ := ih idx rem t ht
      exact ⟨c2, by simp [hc2], hrest⟩

/-- When a limit buy meets a limit sell, `canMatch` succeeding forces
`sell.price ≤ buy.price`. -/
theorem canMatch_buy_limit (o c : Order) (hs : o.side = Side.buy)
    (hcs : c.side = Side.sell) (ht : o.type = OrderType.limit)
    (hct : c.type = OrderType.limit) (h : canMatch o c = true) :
    c.price ≤ o.price := by
  simp [canMatch, hs, hcs, ht, hct] at h
  exact h

/-- When a limit sell meets a limit buy, `canMatch` succeeding forces
`sell.price ≤ buy.price`. -/
theorem canMatch_sell_limit (o c : Order) (hs : o.side = Side.sell)
    (hcs : c.side = Side.buy) (ht : o.type = OrderType.limit)
    (hct : c.type = OrderType.limit) (h : canMatch o c = true) :
    o.price ≤ c.price := by
  simp [canMatch, hs, hcs, ht, hct] at h
  exact h

/-- C4 (amended): a new limit buy of price P trades only against resting
sell candidates that are either limit orders priced ≤ P or market orders
(whose price field is ignored by the match predicate); symmetrically a new
limit sell of price P trades only against limit buys priced ≥ P or market
buys.  Every counterparty comes from the book with status `pending`, the
matching asset, and the opposite side. -/
theorem processOrder_price_compatibility (orderId : String)
    (tradeId : ℕ → String) (now : ℕ) (req : OrderRequest) (orders : List Order)
    (bal : Balances) (htype : req.type = OrderType.limit) :
    (req.side = Side.buy →
      ∀ t ∈ (processOrder orderId tradeId now req orders bal).trades,
        ∃ c ∈ orders, c.side = Side.sell ∧ c.asset = req.asset ∧
          c.status = OrderStatus.pending ∧ t.sellOrderId = c.id ∧
          (c.type = OrderType.limit → c.price ≤ req.price)) ∧
    (req.side = Side.sell →
      ∀ t ∈ (processOrder orderId tradeId now req orders bal).trades,
        ∃ c ∈ orders, c.side = Side.buy ∧ c.asset = req.asset ∧
          c.status = OrderStatus.pending ∧ t.buyOrderId = c.id ∧
          (c.type = OrderType.limit → req.price ≤ c.price)) := by
  constructor
  · intro hbuy t ht
    have ht' : t ∈ (matchLoop tradeId now (newOrderOf orderId now req) 0
        (newOrderOf orderId now req).remainingAmount
        (getOrdersForMatching (orders ++ [newOrderOf orderId now req])
          (newOrderOf orderId now req).asset
          (if (newOrderOf orderId now req).side = Side.buy then Side.sell
           else Side.buy))).trades := by
      simpa [processOrder, matchOrder] using ht
    obtain ⟨c, hcmem, hcm, -, hsid, -, -⟩ :=
      matchLoop_trades_origin tradeId now (newOrderOf orderId now req) _ _ _ t ht'
    have hside : (newOrderOf orderId now req).side = Side.buy := hbuy
    rw [hside] at hcmem
    simp only [if_pos rfl] at hcmem
    obtain ⟨hcin, hcasset, hcside, hcstatus⟩ :=
      (mem_getOrdersForMatching _ _ _ c).1 hcmem
    have hcorders : c ∈ orders := by
      rcases List.mem_append.1 hcin with h | h
      · exact h
      · exfalso
        rw [List.mem_singleton.1 h] at hcside
        rw [hside] at hcside
        exact Side.noConfusion hcside
    refine ⟨c, hcorders, hcside, hcasset, hcstatus, ?_, ?_⟩
    · rw [hsid, hside]
      simp
    · intro hct
      have := canMatch_buy_limit (newOrderOf orderId now req) c hside hcside
        htype hct hcm
      simpa [newOrderOf] using this
  · intro hsell t ht
    have ht' : t ∈ (matchLoop tradeId now (newOrderOf orderId now req) 0
        (newOrderOf orderId now req).remainingAmount
        (getOrdersForMatching (orders ++ [newOrderOf orderId now req])
          (newOrderOf orderId now req).asset
          (if (newOrderOf orderId now req).side = Side.buy then Side.sell
           else Side.buy))).trades := by
      simpa [processOrder, matchOrder] using ht
    obtain ⟨c, hcmem, hcm, hbid, -, -, -⟩ :=
      matchLoop_trades_origin tradeId now (newOrderOf orderId now req) _ _ _ t ht'
    have hside : (newOrderOf orderId now req).side = Side.sell := hsell
    rw [hside] at hcmem
    simp only [reduceCtorEq, if_neg] at hcmem
    obtain ⟨hcin, hcasset, hcside, hcstatus⟩ :=
      (mem_getOrdersForMatching _ _ _ c).1 hcmem
    have hcorders : c ∈ orders := by
      rcases List.mem_append.1 hcin with h | h
      · exact h
      · exfalso
        rw [List.mem_singleton.1 h] at hcside
        rw [hside] at hcside
        exact Side.noConfusion hcside
    refine ⟨c, hcorders, hcside, hcasset, hcstatus, ?_, ?_⟩
    · rw [hbid, hside]
      simp
    · intro hct
      have := canMatch_sell_limit (newOrderOf orderId now req) c hside hcside
        htype hct hcm
      simpa [newOrderOf] using this

/-- Shared demo id generator for concrete engine runs. -/
def demoTradeId : ℕ → String := fun n => "trade-" ++ toString n

/-- C4 (counterexample data): a resting market sell carrying price field
9999 and a new limit buy at 10. -/
def marketSellC4 : Order :=
  ⟨"ms", "0xa", "ETH", Side.sell, 1, 1, 9999, OrderType.market,
    OrderStatus.pending, 1⟩

def limitBuyReqC4 : OrderRequest :=
  ⟨"0xb", "ETH", Side.buy, 1, 10, OrderType.limit⟩

/-- C4 (counterexample): the claim as stated — every trade of a limit buy at
price P is with a sell order whose price is ≤ P — fails: the limit buy at 10
trades with the resting market sell whose price field is 9999. -/
theorem processOrder_price_compat_counterexample :
    ¬ (∀ t ∈ (processOrder "b4" demoTradeId 2 limitBuyReqC4 [marketSellC4]
          (fun _ _ => 0)).trades,
        ∀ c ∈ [marketSellC4], c.id = t.sellOrderId →
          c.price ≤ limitBuyReqC4.price) :=
  of_decide_eq_true (by with_unfolding_all rfl)

/-- Demo book for the C4 witness: one resting limit sell at 5 and one
resting market sell, both matchable by the limit buy at 10. -/
def limitSellC4 : Order :=
  ⟨"ls", "0xa", "ETH", Side.sell, 2, 2, 5, OrderType.limit,
    OrderStatus.pending, 1⟩

theorem processOrder_price_compatibility_witness :
    (limitBuyReqC4.type = OrderType.limit) ∧
    ((limitBuyReqC4.side = Side.buy →
      ∀ t ∈ (processOrder "b4" demoTradeId 2 limitBuyReqC4 [limitSellC4]
          (fun _ _ => 0)).trades,
        ∃ c ∈ [limitSellC4], c.side = Side.sell ∧ c.asset = limitBuyReqC4.asset ∧
          c.status = OrderStatus.pending ∧ t.sellOrderId = c.id ∧
          (c.type = OrderType.limit → c.price ≤ limitBuyReqC4.price)) ∧
    (limitBuyReqC4.side = Side.sell →
      ∀ t ∈ (processOrder "b4" demoTradeId 2 limitBuyReqC4 [limitSellC4]
          (fun _ _ => 0)).trades,
        ∃ c ∈ [limitSellC4], c.side = Side.buy ∧ c.asset = limitBuyReqC4.asset ∧
          c.status = OrderStatus.pending ∧ t.buyOrderId = c.id ∧
          (c.type = OrderType.limit → limitBuyReqC4.price ≤ c.price))) :=
  ⟨rfl, processOrder_price_compatibility "b4" demoTradeId 2 limitBuyReqC4
    [limitSellC4] (fun _ _ => 0) rfl⟩

/-- The candidate list `processOrder` hands to the match loop: the book with
the freshly inserted order, filtered to the opposite side. -/
def candidatesOf (orderId : String) (now : ℕ) (req : OrderRequest)
    (orders : List Order) : List Order :=
  getOrdersForMatching (orders ++ [newOrderOf orderId now req])
    (newOrderOf orderId now req).asset
    (if (newOrderOf orderId now req).side = Side.buy then Side.sell else Side.buy)

/-- The loop run `processOrder` performs. -/
def loopOf (orderId : String) (tradeId : ℕ → String) (now : ℕ)
    (req : OrderRequest) (orders : List Order) : LoopResult :=
  matchLoop tradeId now (newOrderOf orderId now req) 0
    (newOrderOf orderId now req).remainingAmount
    (candidatesOf orderId now req orders)

/-- The `remainingOrder` produced by `matchOrder` inside `processOrder`. -/
def remainingOrderOf (orderId : String) (tradeId : ℕ → String) (now : ℕ)
    (req : OrderRequest) (orders : List Order) : Option Order :=
  if (loopOf orderId tradeId now req orders).remaining > 0 then
    some {newOrderOf orderId now req with
      remainingAmount := (loopOf orderId tradeId now req orders).remaining}
  else none

theorem processOrder_order (orderId : String) (tradeId : ℕ → String) (now : ℕ)
    (req : OrderRequest) (orders : List Order) (bal : Balances) :
    (processOrder orderId tradeId now req orders bal).order
      = finalizeOrder (newOrderOf orderId now req)
          ⟨(loopOf orderId tradeId now req orders).trades,
            remainingOrderOf orderId tradeId now req orders,
            (loopOf orderId tradeId now req orders).updates⟩ := rfl

theorem processOrder_trades (orderId : String) (tradeId : ℕ → String) (now : ℕ)
    (req : OrderRequest) (orders : List Order) (bal : Balances) :
    (processOrder orderId tradeId now req orders bal).trades
      = (loopOf orderId tradeId now req orders).trades := rfl

theorem processOrder_remainingAmount (orderId : String) (tradeId : ℕ → String)
    (now : ℕ) (req : OrderRequest) (orders : List Order) (bal : Balances) :
    (processOrder orderId tradeId now req orders bal).remainingAmount
      = (match remainingOrderOf orderId tradeId now req orders with
         | some ro => ro.remainingAmount
         | none => 0) := rfl

/-- C5: after `processOrder` on a positive-amount request over a book of
positive-remaining orders, the persisted order satisfies: `pending` iff no
trades were produced and the remaining amount equals the original amount;
`partially_filled` iff some trades were produced and remaining is positive;
`filled` iff remaining is zero; and the returned `remainingAmount` equals
the original amount minus the sum of the produced trades' amounts. -/
theorem processOrder_status_spec (orderId : String) (tradeId : ℕ → String)
    (now : ℕ) (req : OrderRequest) (orders : List Order) (bal : Balances)
    (hamt : 0 < req.amount) (hdb : ∀ o ∈ orders, 0 < o.remainingAmount) :
    ((processOrder orderId tradeId now req orders bal).order.status
        = OrderStatus.pending ↔
      (processOrder orderId tradeId now req orders bal).trades = [] ∧
      (processOrder orderId tradeId now req orders bal).order.remainingAmount
        = req.amount) ∧
    ((processOrder orderId tradeId now req orders bal).order.status
        = OrderStatus.partiallyFilled ↔
      (processOrder orderId tradeId now req orders bal).trades ≠ [] ∧
      0 < (processOrder orderId tradeId now req orders bal).order.remainingAmount) ∧
    ((processOrder orderId tradeId now req orders bal).order.status
        = OrderStatus.filled ↔
      (processOrder orderId tradeId now req orders bal).order.remainingAmount
        = 0) ∧
    (processOrder orderId tradeId now req orders bal).remainingAmount
      = req.amount -
        (((processOrder orderId tradeId now req orders bal).trades.map
          Trade.amount).sum) := by
  have hOrem : (newOrderOf orderId now req).remainingAmount = req.amount := rfl
  have hOamt : (newOrderOf orderId now req).amount = req.amount := rfl
  have hcands : ∀ c ∈ candidatesOf orderId now req orders,
      0 < c.remainingAmount := by
    intro c hc
    have hmm := (mem_getOrdersForMatching _ _ _ c).1 hc
    rcases List.mem_append.1 hmm.1 with h | h
    · exact hdb c h
    · rw [List.mem_singleton.1 h, hOrem]
      exact hamt
  have inv := matchLoop_invariant tradeId now (newOrderOf orderId now req)
    (candidatesOf orderId now req orders) 0
    (newOrderOf orderId now req).remainingAmount
    (by rw [hOrem]; exact hamt) hcands
  have hLdef : loopOf orderId tradeId now req orders
      = matchLoop tradeId now (newOrderOf orderId now req) 0
          (newOrderOf orderId now req).remainingAmount
          (candidatesOf orderId now req orders) := rfl
  rw [← hLdef] at inv
  obtain ⟨inv1, inv2, inv3⟩ := inv
  rw [hOrem] at inv1
  rw [processOrder_order, processOrder_trades, processOrder_remainingAmount]
  by_cases htr : (loopOf orderId tradeId now req orders).trades = []
  · have hsum0 : (((loopOf orderId tradeId now req orders).trades.map
        Trade.amount).sum) = 0 := by rw [htr]; rfl
    have hrem : (loopOf orderId tradeId now req orders).remaining = req.amount := by
      rw [inv1, hsum0, sub_zero]
    have hRO : remainingOrderOf orderId tradeId now req orders
        = some {newOrderOf orderId now req with
            remainingAmount := (loopOf orderId tradeId now req orders).remaining} := by
      unfold remainingOrderOf
      rw [if_pos (by rw [hrem]; exact hamt)]
    have hfin : finalizeOrder (newOrderOf orderId now req)
        ⟨(loopOf orderId tradeId now req orders).trades,
          remainingOrderOf orderId tradeId now req orders,
          (loopOf orderId tradeId now req orders).updates⟩
        = {newOrderOf orderId now req with
            status := OrderStatus.pending
            remainingAmount := (newOrderOf orderId now req).amount} := by
      rw [hRO]
      unfold finalizeOrder
      simp [htr, hrem, hOamt, hOrem]
    rw [hfin, hRO]
    refine ⟨?_, ?_, ?_, ?_⟩
    · simp [htr, hOamt]
    · simp [htr]
    · simp [hOamt]
      intro h
      rw [h] at hamt
      exact absurd hamt (lt_irrefl 0)
    · simp [hsum0, hrem]
  · have hmapne : ((loopOf orderId tradeId now req orders).trades.map
        Trade.amount) ≠ [] := by
      simpa using htr
    have hsumpos : 0 < (((loopOf orderId tradeId now req orders).trades.map
        Trade.amount).sum) := by
      refine List.sum_pos _ ?_ hmapne
      intro x hx
      obtain ⟨t, ht, rfl⟩ := List.mem_map.1 hx
      exact inv3 t ht
    have hremlt : (loopOf orderId tradeId now req orders).remaining < req.amount := by
      rw [inv1]; linarith
    by_cases hz : (loopOf orderId tradeId now req orders).remaining = 0
    · have hRO : remainingOrderOf orderId tradeId now req orders = none := by
        unfold remainingOrderOf
        rw [if_neg (by rw [hz]; exact lt_irrefl 0)]
      have hfin : finalizeOrder (newOrderOf orderId now req)
          ⟨(loopOf orderId tradeId now req orders).trades,
            remainingOrderOf orderId tradeId now req orders,
            (loopOf orderId tradeId now req orders).updates⟩
          = {newOrderOf orderId now req with
              status := OrderStatus.filled
              remainingAmount := 0} := by
        rw [hRO]
        unfold finalizeOrder
        rfl
      rw [hfin, hRO]
      refine ⟨?_, ?_, ?_, ?_⟩
      · simp [htr]
      · simp
      · simp
      · simp
        rw [← hz, inv1]
    · have hpos : 0 < (loopOf orderId tradeId now req orders).remaining :=
        lt_of_le_of_ne inv2 (Ne.symm hz)
      have hRO : remainingOrderOf orderId tradeId now req orders
          = some {newOrderOf orderId now req with
              remainingAmount := (loopOf orderId tradeId now req orders).remaining} := by
        unfold remainingOrderOf
        rw [if_pos hpos]
      have hfin : finalizeOrder (newOrderOf orderId now req)
          ⟨(loopOf orderId tradeId now req orders).trades,
            remainingOrderOf orderId tradeId now req orders,
            (loopOf orderId tradeId now req orders).updates⟩
          = {newOrderOf orderId now req with
              status := OrderStatus.partiallyFilled
              remainingAmount := (loopOf orderId tradeId now req orders).remaining} := by
        rw [hRO]
        unfold finalizeOrder
        simp [htr, hOamt, hremlt]
      rw [hfin, hRO]
      refine ⟨?_, ?_, ?_, ?_⟩
      · simp
        intro h
        exact absurd h htr
      · simp [htr, hpos]
      · simp
        intro h
        exact absurd h hz
      · simp [inv1]

/-- Demo data for the C5 witness: a buy for 1 ETH at 10 partially fills
against a resting sell of 0.4 ETH at 5. -/
def sellSmallC5 : Order :=
  ⟨"s5", "0xa", "ETH", Side.sell, 2/5, 2/5, 5, OrderType.limit,
    OrderStatus.pending, 1⟩

def buyReqC5 : OrderRequest :=
  ⟨"0xb", "ETH", Side.buy, 1, 10, OrderType.limit⟩

theorem processOrder_status_spec_witness :
    ((0 : ℚ) < buyReqC5.amount ∧
      (∀ o ∈ [sellSmallC5], 0 < o.remainingAmount)) ∧
    (((processOrder "b5" demoTradeId 2 buyReqC5 [sellSmallC5]
          (fun _ _ => 0)).order.status = OrderStatus.pending ↔
      (processOrder "b5" demoTradeId 2 buyReqC5 [sellSmallC5]
          (fun _ _ => 0)).trades = [] ∧
      (processOrder "b5" demoTradeId 2 buyReqC5 [sellSmallC5]
          (fun _ _ => 0)).order.remainingAmount = buyReqC5.amount) ∧
    ((processOrder "b5" demoTradeId 2 buyReqC5 [sellSmallC5]
          (fun _ _ => 0)).order.status = OrderStatus.partiallyFilled ↔
      (processOrder "b5" demoTradeId 2 buyReqC5 [sellSmallC5]
          (fun _ _ => 0)).trades ≠ [] ∧
      0 < (processOrder "b5" demoTradeId 2 buyReqC5 [sellSmallC5]
          (fun _ _ => 0)).order.remainingAmount) ∧
    ((processOrder "b5" demoTradeId 2 buyReqC5 [sellSmallC5]
          (fun _ _ => 0)).order.status = OrderStatus.filled ↔
      (processOrder "b5" demoTradeId 2 buyReqC5 [sellSmallC5]
          (fun _ _ => 0)).order.remainingAmount = 0) ∧
    (processOrder "b5" demoTradeId 2 buyReqC5 [sellSmallC5]
          (fun _ _ => 0)).remainingAmount
      = buyReqC5.amount -
        (((processOrder "b5" demoTradeId 2 buyReqC5 [sellSmallC5]
          (fun _ _ => 0)).trades.map Trade.amount).sum)) :=
  ⟨⟨by decide, of_decide_eq_true (by with_unfolding_all rfl)⟩,
    processOrder_status_spec "b5" demoTradeId 2 buyReqC5 [sellSmallC5]
      (fun _ _ => 0) (by decide) (of_decide_eq_true (by with_unfolding_all rfl))⟩

/-- Demo data for C10: the same address rests a sell and then sends a buy. -/
def restingSellC10 : Order :=
  ⟨"s10", "0xa", "ETH", Side.sell, 1, 1, 5, OrderType.limit,
    OrderStatus.pending, 1⟩

def selfBuyReqC10 : OrderRequest :=
  ⟨"0xa", "ETH", Side.buy, 1, 10, OrderType.limit⟩

/-- C10: the engine never compares addresses, so an address can trade with
itself: processing a buy from the address that owns the resting sell yields
a trade whose buyer and seller coincide; and executing any self-trade leaves
every balance unchanged, the base credit/debit and the quote debit/credit
cancelling under exact arithmetic. -/
theorem selfTrade_possible_and_neutral :
    ((processOrder "b10" demoTradeId 2 selfBuyReqC10 [restingSellC10]
        (fun _ _ => 0)).trades ≠ [] ∧
      ∀ t ∈ (processOrder "b10" demoTradeId 2 selfBuyReqC10 [restingSellC10]
        (fun _ _ => 0)).trades, t.buyerAddress = t.sellerAddress) ∧
    (∀ (t : Trade) (bal : Balances), t.buyerAddress = t.sellerAddress →
      ∀ (a s : String), executeTrade t bal a s = bal a s) := by
  constructor
  · exact of_decide_eq_true (by with_unfolding_all rfl)
  · intro t bal h a s
    by_cases ha : a = t.sellerAddress
    · subst ha
      by_cases hs1 : s = t.asset
      · subst hs1
        by_cases hs2 : t.asset = "USDC"
        · simp [executeTrade, updateBalance, getQuoteAsset, h, hs2]
        · simp [executeTrade, updateBalance, getQuoteAsset, h, hs2]
      · by_cases hs2 : s = "USDC"
        · subst hs2
          simp [executeTrade, updateBalance, getQuoteAsset, h, hs1]
        · simp [executeTrade, updateBalance, getQuoteAsset, h, hs1, hs2]
    · simp [executeTrade, updateBalance, getQuoteAsset, h, ha]

/-- A concrete self-trade for the C10 witness. -/
def selfTradeC10 : Trade := ⟨"t1", "b", "s", "ETH", 1, 5, "0xa", "0xa", 0⟩

def balC10 : Balances := fun _ _ => 3

theorem selfTrade_possible_and_neutral_witness :
    (selfTradeC10.buyerAddress = selfTradeC10.sellerAddress) ∧
    (∀ (a s : String), executeTrade selfTradeC10 balC10 a s = balC10 a s) :=
  ⟨rfl, selfTrade_possible_and_neutral.2 selfTradeC10 balC10 rfl⟩

end UniversalExchange
